import Mathlib

namespace TaskApp

/-!
Verification of the task-manager component in `src/src/App.js`.

The component keeps an ordered store of tasks, mutated only through the
reducer `taskReducer` with actions `add`, `toggle` and `filter`, and derives
two memoized views: `completedTasks` and `filteredTasks`.  We embed the
store, the reducer, the `addTask` click handler and the two derived views as
Lean functions and prove the spec's properties about them.
-/

/-- A task record `{ id, text, completed }` as created by the `add` action.
The JavaScript id is `Date.now()`, a number; we model it as `Nat`. -/
structure Task where
  id : Nat
  text : String
  completed : Bool
deriving DecidableEq

/-- The actions understood by `taskReducer`.  The JavaScript `add` action
reads the clock (`Date.now()`) inside the reducer; we make that clock
reading an explicit argument `now` of the action.  `unknown` stands for any
action object whose `type` matches none of the three cases. -/
inductive Action where
  | add (now : Nat) (text : String)
  | toggle (id : Nat)
  | filter (payload : List Task)
  | unknown
deriving DecidableEq

/-- Model of JavaScript `String.prototype.trim`: drop leading and trailing
whitespace. -/
def jsTrim (s : String) : String :=
  ⟨((s.data.dropWhile Char.isWhitespace).reverse.dropWhile Char.isWhitespace).reverse⟩

/-- Model of JavaScript `String.prototype.toLowerCase` (ASCII case mapping,
as in Lean's own character lowering). -/
def jsToLower (s : String) : String :=
  ⟨s.data.map Char.toLower⟩

/-- Does the pattern occur at the front of the string?  Helper for
`strContains`. -/
def frontMatches : List Char → List Char → Bool
  | _, [] => true
  | [], _ :: _ => false
  | c :: cs, d :: ds => c == d && frontMatches cs ds

/-- Substring occurrence on character lists: the pattern occurs at the front
or somewhere in the tail. -/
def strContains : List Char → List Char → Bool
  | [], pat => frontMatches [] pat
  | s@(_ :: rest), pat => frontMatches s pat || strContains rest pat

/-- Model of JavaScript `String.prototype.includes`: substring test. -/
def jsIncludes (s pat : String) : Bool :=
  strContains s.data pat.data

/-- The reducer `taskReducer(state, action)` from `App.js`:
`add` appends `{ id: Date.now(), text: action.text, completed: false }`,
`toggle` maps over the store flipping `completed` where the id matches,
`filter` replaces the store with the payload, and any other action returns
the state unchanged. -/
def taskReducer (state : List Task) (action : Action) : List Task :=
  match action with
  | Action.add now text => state ++ [{ id := now, text := text, completed := false }]
  | Action.toggle i =>
      state.map (fun task =>
        if task.id == i then { task with completed := !task.completed } else task)
  | Action.filter payload => payload
  | Action.unknown => state

/-- The `addTask` click handler: if the entered text is truthy after
trimming it dispatches `add` (with the untrimmed text) and clears the input,
otherwise it does nothing.  Takes the current input value, the current
store and the clock reading; returns the next store and next input value. -/
def addTask (newTask : String) (tasks : List Task) (now : Nat) :
    List Task × String :=
  if jsTrim newTask ≠ "" then (taskReducer tasks (Action.add now newTask), "")
  else (tasks, newTask)

/-- The memoized completed view: `tasks.filter((task) => task.completed)`. -/
def completedTasks (tasks : List Task) : List Task :=
  tasks.filter (fun task => task.completed)

/-- The memoized filter pipeline:
`tasks.filter((task) => task.text.toLowerCase().includes(deferredSearchTerm.toLowerCase()))`. -/
def filteredTasks (tasks : List Task) (deferredSearchTerm : String) : List Task :=
  tasks.filter (fun task =>
    jsIncludes (jsToLower task.text) (jsToLower deferredSearchTerm))

/-- A session: starting from the initial store `[]`, fold the dispatched
actions through the reducer. -/
def runActions (actions : List Action) : List Task :=
  actions.foldl taskReducer []

/-- The clock readings of the `add` actions of a sequence, in dispatch
order. -/
def addClocks : List Action → List Nat
  | [] => []
  | Action.add now _ :: rest => now :: addClocks rest
  | _ :: rest => addClocks rest

/-- Recognizes the `filter` action (the dead code path no handler
dispatches). -/
def isFilterAction : Action → Bool
  | Action.filter _ => true
  | _ => false

/-- A small concrete store used by the witness theorems. -/
def demoStore : List Task :=
  [{ id := 1, text := "buy milk", completed := false },
   { id := 2, text := "walk dog", completed := true }]

/-- A store in which the id `7` occurs twice, as `Date.now()` can produce
for two creations in the same millisecond. -/
def dupStore : List Task :=
  [{ id := 7, text := "a", completed := false },
   { id := 7, text := "b", completed := true }]

/-- A concrete dispatch sequence with strictly increasing clock readings,
used by the witness of the amended id-uniqueness claim. -/
def demoActions : List Action :=
  [Action.add 1 "a", Action.toggle 1, Action.add 2 "b", Action.unknown]

/-! ### Helper lemmas -/

theorem frontMatches_nil (s : List Char) : frontMatches s [] = true := by
  cases s <;> rfl

theorem strContains_nil (s : List Char) : strContains s [] = true := by
  cases s with
  | nil => rfl
  | cons c rest => simp [strContains, frontMatches_nil]

theorem jsIncludes_empty (s : String) : jsIncludes s "" = true :=
  strContains_nil s.data

theorem jsToLower_empty : jsToLower "" = "" := by
  decide

/-! ### Claim theorems -/

/-- C1: for every store and every string `s` non-blank after trimming,
dispatching `add` with text `s` grows the store by exactly one, the new last
element has text `s` and `completed = false`, and the previous elements are
kept unchanged in their original order. -/
theorem add_appends_new_task (state : List Task) (s : String) (now : Nat)
    (h : jsTrim s ≠ "") :
    (taskReducer state (Action.add now s)).length = state.length + 1 ∧
    ((taskReducer state (Action.add now s)).getLast?).map
        (fun t => (t.text, t.completed)) = some (s, false) ∧
    (taskReducer state (Action.add now s)).take state.length = state := by
  refine ⟨by simp [taskReducer], ?_, ?_⟩
  · simp only [taskReducer]
    rw [List.getLast?_concat]
    rfl
  · simp only [taskReducer]
    exact List.take_left state _

/-- Witness for C1 at a concrete store and text. -/
theorem add_appends_new_task_witness :
    jsTrim "buy milk" ≠ "" ∧
    ((taskReducer demoStore (Action.add 3 "buy milk")).length = demoStore.length + 1 ∧
     ((taskReducer demoStore (Action.add 3 "buy milk")).getLast?).map
         (fun t => (t.text, t.completed)) = some ("buy milk", false) ∧
     (taskReducer demoStore (Action.add 3 "buy milk")).take demoStore.length = demoStore) :=
  ⟨by decide, add_appends_new_task demoStore "buy milk" 3 (by decide)⟩

/-- C3: the filter pipeline returns exactly the tasks whose text contains
the term as a case-insensitive substring — every returned element satisfies
the predicate, no element of the store satisfying it is excluded, and the
empty term matches all tasks. -/
theorem filteredTasks_exact (tasks : List Task) (term : String) :
    (∀ t ∈ filteredTasks tasks term,
        jsIncludes (jsToLower t.text) (jsToLower term) = true) ∧
    (∀ t ∈ tasks,
        jsIncludes (jsToLower t.text) (jsToLower term) = true →
          t ∈ filteredTasks tasks term) ∧
    filteredTasks tasks "" = tasks := by
  refine ⟨?_, ?_, ?_⟩
  · intro t ht
    exact (List.mem_filter.mp ht).2
  · intro t ht hp
    exact List.mem_filter.mpr ⟨ht, hp⟩
  · refine List.filter_eq_self.mpr (fun t _ => ?_)
    rw [jsToLower_empty]
    exact jsIncludes_empty _

/-- C5: the `addTask` handler with input blank after trimming dispatches
nothing — the store is returned unchanged and its length is unchanged. -/
theorem addTask_blank_noop (newTask : String) (tasks : List Task) (now : Nat)
    (h : jsTrim newTask = "") :
    (addTask newTask tasks now).1 = tasks ∧
    (addTask newTask tasks now).1.length = tasks.length := by
  have heq : addTask newTask tasks now = (tasks, newTask) := by
    simp [addTask, h]
  rw [heq]
  exact ⟨rfl, rfl⟩

/-- Witness for C5 at whitespace-only input. -/
theorem addTask_blank_noop_witness :
    jsTrim "   " = "" ∧
    ((addTask "   " demoStore 9).1 = demoStore ∧
     (addTask "   " demoStore 9).1.length = demoStore.length) :=
  ⟨by decide, addTask_blank_noop "   " demoStore 9 (by decide)⟩

/-- C6: dispatching `toggle` with an id matching no task returns the store
unchanged (hence equal in length, elements and order). -/
theorem toggle_unmatched_noop (state : List Task) (i : Nat)
    (h : ∀ t ∈ state, t.id ≠ i) :
    taskReducer state (Action.toggle i) = state := by
  simp only [taskReducer]
  conv_rhs => rw [← List.map_id state]
  refine List.map_congr_left (fun t ht => ?_)
  simp [h t ht]

/-- Witness for C6 at an id absent from the concrete store. -/
theorem toggle_unmatched_noop_witness :
    (∀ t ∈ demoStore, t.id ≠ 99) ∧
    taskReducer demoStore (Action.toggle 99) = demoStore :=
  ⟨by decide, toggle_unmatched_noop demoStore 99 (by decide)⟩

/-- C8: the completed view is exactly the subset of the store with
`completed = true`. -/
theorem completedTasks_exact (tasks : List Task) :
    (∀ t ∈ completedTasks tasks, t.completed = true) ∧
    (∀ t ∈ tasks, t.completed = true → t ∈ completedTasks tasks) := by
  constructor
  · intro t ht
    exact (List.mem_filter.mp ht).2
  · intro t ht hc
    exact List.mem_filter.mpr ⟨ht, hc⟩

/-- C10: both derived views are sublists of the store, so they preserve the
store's relative order. -/
theorem views_preserve_order (tasks : List Task) (term : String) :
    List.Sublist (filteredTasks tasks term) tasks ∧
    List.Sublist (completedTasks tasks) tasks :=
  ⟨List.filter_sublist tasks, List.filter_sublist tasks⟩

/-- Pointwise description of `toggle`: the element at each position of the
result is the element at that position of the input, with `completed`
flipped exactly when its id matches. -/
theorem toggle_getElem (state : List Task) (i : Nat) (j : Nat) :
    (taskReducer state (Action.toggle i))[j]? =
      (state[j]?).map (fun t =>
        if t.id = i then { t with completed := !t.completed } else t) := by
  simp only [taskReducer]
  rw [List.getElem?_map]
  cases state[j]? with
  | none => rfl
  | some t =>
      by_cases h : t.id = i <;> simp [h]

/-- Applying `toggle` twice with the same id is the identity on the store. -/
theorem toggle_toggle (state : List Task) (i : Nat) :
    taskReducer (taskReducer state (Action.toggle i)) (Action.toggle i) = state := by
  simp only [taskReducer, List.map_map]
  conv_rhs => rw [← List.map_id state]
  refine List.map_congr_left (fun t _ => ?_)
  rcases t with ⟨tid, ttext, tc⟩
  by_cases h : tid = i <;> simp [Function.comp, h]

/-- C2: for a store in which `i` occurs exactly once, `toggle i` preserves
length and order, flips `completed` of the matching element, and leaves
every other element's `(id, text, completed)` unchanged. -/
theorem toggle_flips_unique_match (state : List Task) (i : Nat)
    (h : state.countP (fun t => t.id == i) = 1) :
    (taskReducer state (Action.toggle i)).length = state.length ∧
    ∀ j : Nat, (taskReducer state (Action.toggle i))[j]? =
      (state[j]?).map (fun t =>
        if t.id = i then { t with completed := !t.completed } else t) :=
  ⟨by simp [taskReducer], fun j => toggle_getElem state i j⟩

/-- Witness for C2 at a concrete store where id `1` occurs exactly once. -/
theorem toggle_flips_unique_match_witness :
    demoStore.countP (fun t => t.id == 1) = 1 ∧
    ((taskReducer demoStore (Action.toggle 1)).length = demoStore.length ∧
     ∀ j : Nat, (taskReducer demoStore (Action.toggle 1))[j]? =
       (demoStore[j]?).map (fun t =>
         if t.id = 1 then { t with completed := !t.completed } else t)) :=
  ⟨by decide, toggle_flips_unique_match demoStore 1 (by decide)⟩

/-- C7: for a store in which `i` occurs exactly once, toggling `i` twice
restores every element's `completed` value. -/
theorem toggle_twice_restores_completed (state : List Task) (i : Nat)
    (h : state.countP (fun t => t.id == i) = 1) :
    (taskReducer (taskReducer state (Action.toggle i)) (Action.toggle i)).map
        (fun t => t.completed) =
      state.map (fun t => t.completed) := by
  rw [toggle_toggle]

/-- Witness for C7 at a concrete store where id `1` occurs exactly once. -/
theorem toggle_twice_restores_completed_witness :
    demoStore.countP (fun t => t.id == 1) = 1 ∧
    (taskReducer (taskReducer demoStore (Action.toggle 1)) (Action.toggle 1)).map
        (fun t => t.completed) =
      demoStore.map (fun t => t.completed) :=
  ⟨by decide, toggle_twice_restores_completed demoStore 1 (by decide)⟩

/-- C9: for a store in which `i` occurs more than once, `toggle i` flips
`completed` of every matching element, not only the first. -/
theorem toggle_flips_all_matches (state : List Task) (i : Nat)
    (h : 1 < state.countP (fun t => t.id == i)) :
    (taskReducer state (Action.toggle i)).length = state.length ∧
    ∀ j : Nat, (taskReducer state (Action.toggle i))[j]? =
      (state[j]?).map (fun t =>
        if t.id = i then { t with completed := !t.completed } else t) :=
  ⟨by simp [taskReducer], fun j => toggle_getElem state i j⟩

/-- Witness for C9 at a concrete store where id `7` occurs twice. -/
theorem toggle_flips_all_matches_witness :
    1 < dupStore.countP (fun t => t.id == 7) ∧
    ((taskReducer dupStore (Action.toggle 7)).length = dupStore.length ∧
     ∀ j : Nat, (taskReducer dupStore (Action.toggle 7))[j]? =
       (dupStore[j]?).map (fun t =>
         if t.id = 7 then { t with completed := !t.completed } else t)) :=
  ⟨by decide, toggle_flips_all_matches dupStore 7 (by decide)⟩

/-- `toggle` leaves the list of ids of the store untouched. -/
theorem toggle_map_id (state : List Task) (i : Nat) :
    (taskReducer state (Action.toggle i)).map Task.id = state.map Task.id := by
  simp only [taskReducer, List.map_map]
  refine List.map_congr_left (fun t _ => ?_)
  by_cases h : t.id = i <;> simp [Function.comp, h]

/-- Running a sequence of `add`/`toggle`/`unknown` actions keeps the ids
strictly increasing, provided the store ids followed by the upcoming clock
readings are strictly increasing. -/
theorem run_ids_pairwise (actions : List Action) :
    ∀ store : List Task,
      (∀ a ∈ actions, isFilterAction a = false) →
      (store.map Task.id ++ addClocks actions).Pairwise (· < ·) →
      ((actions.foldl taskReducer store).map Task.id).Pairwise (· < ·) := by
  induction actions with
  | nil =>
      intro store _ h
      simpa [addClocks] using h
  | cons a rest ih =>
      intro store hnf h
      rw [List.foldl_cons]
      match a with
      | Action.add now text =>
          refine ih _ (fun x hx => hnf x (by simp [hx])) ?_
          simpa [taskReducer, addClocks, List.append_assoc] using h
      | Action.toggle i =>
          refine ih _ (fun x hx => hnf x (by simp [hx])) ?_
          rw [toggle_map_id]
          simpa [addClocks] using h
      | Action.filter payload =>
          have hfa := hnf (Action.filter payload) (List.mem_cons_self _ _)
          simp [isFilterAction] at hfa
      | Action.unknown =>
          refine ih _ (fun x hx => hnf x (by simp [hx])) ?_
          simpa [taskReducer, addClocks] using h

/-- C4 counterexample: two `add` actions carrying the same clock reading —
which `Date.now()` delivers for two creations within one millisecond —
produce a store with a duplicated id, so id uniqueness is not an invariant
of every dispatch sequence. -/
theorem run_ids_duplicate_counterexample :
    ¬ ((runActions [Action.add 5 "a", Action.add 5 "b"]).map Task.id).Nodup := by
  decide

/-- C4 (amended): if no `filter` action is dispatched and the clock readings
of the `add` actions are strictly increasing, then after any dispatch
sequence from the empty store the ids of the tasks are pairwise distinct. -/
theorem run_ids_nodup (actions : List Action)
    (hnf : ∀ a ∈ actions, isFilterAction a = false)
    (hmono : (addClocks actions).Pairwise (· < ·)) :
    ((runActions actions).map Task.id).Nodup := by
  have hp := run_ids_pairwise actions [] hnf (by simpa using hmono)
  exact hp.imp (fun hlt => Nat.ne_of_lt hlt)

/-- Witness for the amended C4 at a concrete dispatch sequence. -/
theorem run_ids_nodup_witness :
    (∀ a ∈ demoActions, isFilterAction a = false) ∧
    (addClocks demoActions).Pairwise (· < ·) ∧
    ((runActions demoActions).map Task.id).Nodup :=
  ⟨by decide, by decide, run_ids_nodup demoActions (by decide) (by decide)⟩

end TaskApp
